import Mathlib

/-!
Verification development for the manabakh-vod-edge repository: a shallow
embedding of its cache subsystem (Memory, Redis L1, Cassandra L2, the
hybrid composition, the capacity manager) and of the CDN request handler,
together with theorems settling the specification claims.

Strings from the TypeScript source are modelled as lists of characters
(`Str`), byte payloads as lists of naturals (`Bytes`), and wall-clock
times as naturals counting milliseconds since the epoch, matching the
JavaScript `Date.getTime()` representation.
-/

/-- Character-list strings: the model of JavaScript strings. -/
abbrev Str := List Char

/-- Byte payloads: the model of Node `Buffer` contents. -/
abbrev Bytes := List Nat

/-- Sum of the lengths of a list of byte chunks (`totalSize` accumulators). -/
def sumLen (chunks : List Bytes) : Nat := (chunks.map List.length).sum

/-- Assoc-list lookup used to model keyed stores (first match wins). -/
def lookupA {β : Type} : List (Str × β) → Str → Option β
  | [], _ => none
  | (k, v) :: rest, key => if k = key then some v else lookupA rest key

/-- Remove every binding of a key (the model of a keyed delete). -/
def eraseK {β : Type} (l : List (Str × β)) (key : Str) : List (Str × β) :=
  l.filter (fun e => decide (e.1 ≠ key))

/-- Insert-or-replace a binding: replaces in place when the key is present,
appends otherwise (JavaScript object / store key semantics). -/
def setK {β : Type} : List (Str × β) → Str → β → List (Str × β)
  | [], key, v => [(key, v)]
  | (k, w) :: rest, key, v =>
    if k = key then (k, v) :: rest else (k, w) :: setK rest key v

/-- Replace the value bound to a key by applying a function (in-place
object mutation through a held reference, `useClones:false`). -/
def mapValK {β : Type} : List (Str × β) → Str → (β → β) → List (Str × β)
  | [], _, _ => []
  | (k, w) :: rest, key, f =>
    if k = key then (k, f w) :: mapValK rest key f else (k, w) :: mapValK rest key f

theorem lookupA_setK {β : Type} (l : List (Str × β)) (key : Str) (v : β) :
    lookupA (setK l key v) key = some v := by
  induction l with
  | nil => simp [setK, lookupA]
  | cons hd tl ih =>
    obtain ⟨k, w⟩ := hd
    by_cases h : k = key
    · simp [setK, h, lookupA]
    · simp [setK, h, lookupA, ih]

theorem lookupA_mapValK {β : Type} (l : List (Str × β)) (key : Str) (f : β → β) :
    lookupA (mapValK l key f) key = (lookupA l key).map f := by
  induction l with
  | nil => simp [mapValK, lookupA]
  | cons hd tl ih =>
    obtain ⟨k, w⟩ := hd
    by_cases h : k = key
    · simp [mapValK, lookupA, h]
    · simp [mapValK, lookupA, h, ih]

theorem length_setK_of_lookupA {β : Type} (l : List (Str × β)) (key : Str) (v : β)
    (h : lookupA l key ≠ none) : (setK l key v).length = l.length := by
  induction l with
  | nil => simp [lookupA] at h
  | cons hd tl ih =>
    obtain ⟨k, w⟩ := hd
    by_cases hk : k = key
    · simp [setK, hk]
    · simp [lookupA, hk] at h
      simp [setK, hk, ih h]

/-- Embedding of `Math.ceil(n * 0.2)` on item counts (a fifth, rounded up). -/
def ceilFifth (n : Nat) : Nat := (n + 4) / 5

example : ceilFifth 2 = 1 := by decide
example : ceilFifth 100 = 20 := by decide
example : "ab".data = ['a', 'b'] := by decide

/-!
Section: Configuration (src/config/constants.ts, CACHE section)
-/

/-- Cache configuration drawn from the environment; fields mirror
`CACHE.TTL` (seconds), `CACHE.MAX_SIZE` (bytes) and `CACHE.MAX_ITEMS`. -/
structure CacheConfig where
  ttl : Nat
  maxSize : Int
  maxItems : Nat
deriving DecidableEq

/-- The default configuration: TTL 300 s, MAX_SIZE 100 MiB, MAX_ITEMS 1000. -/
def defaultConfig : CacheConfig := { ttl := 300, maxSize := 104857600, maxItems := 1000 }

/-- The `options.ttl || CACHE.TTL` idiom: a missing or zero ttl falls back
to the configured default (JavaScript falsiness of 0). -/
def jsTtl (cfg : CacheConfig) (ttlOpt : Option Nat) : Nat :=
  match ttlOpt with
  | some t => if t = 0 then cfg.ttl else t
  | none => cfg.ttl

/-!
Section: Memory backend (class MemoryCache backed by node-cache)

The record stored per key mirrors the object literal built in
`MemoryCache.set`; `expiresAt`, `createdAt` and `lastModified` carry
millisecond timestamps. A node-cache entry pairs the stored record with
the node-cache expiry deadline `t` in milliseconds (`0` means unlimited).
-/

/-- The per-key record stored by `MemoryCache.set`. -/
structure MemRecord where
  data : Bytes
  size : Nat
  contentType : Option Str
  etag : Option Str
  lastModified : Option Nat
  createdAt : Nat
  expiresAt : Nat
  hitCount : Nat
deriving DecidableEq

/-- A node-cache slot: the stored record plus the node-cache deadline
`t = now + ttlSeconds * 1000` (0 encodes no expiry). -/
structure MemEntry where
  item : MemRecord
  tMs : Nat
deriving DecidableEq

/-- The MemoryCache state: the node-cache key table (insertion order, as
enumerated by `keys()`) and the `currentCacheSize` accumulator. -/
structure MemoryState where
  entries : List (Str × MemEntry)
  currentCacheSize : Int
deriving DecidableEq

/-- The empty memory cache. -/
def emptyMem : MemoryState := { entries := [], currentCacheSize := 0 }

/-- node-cache liveness: an entry is expired iff `t` is nonzero and
`t < Date.now()`. -/
def ncLive (now : Nat) (e : MemEntry) : Bool := e.tMs = 0 || now ≤ e.tMs

/-- node-cache `get`: returns the value when present and live; an expired
entry is removed (`deleteOnExpire`) and the call misses. -/
def ncGet (st : MemoryState) (now : Nat) (key : Str) : Option MemRecord × MemoryState :=
  match lookupA st.entries key with
  | none => (none, st)
  | some e =>
    if ncLive now e then (some e.item, st)
    else (none, { st with entries := eraseK st.entries key })

/-- node-cache `set` with an explicit ttl in seconds: throws `ECACHEFULL`
(modelled as a `false` result leaving the state unchanged) when the key
table already holds `maxKeys` entries, else stores the record with
deadline `now + ttl * 1000` (0 ttl encodes no expiry). -/
def ncSet (cfg : CacheConfig) (st : MemoryState) (now : Nat) (key : Str)
    (r : MemRecord) (ttlSec : Nat) : Bool × MemoryState :=
  if cfg.maxItems ≤ st.entries.length then (false, st)
  else
    (true, { st with entries := setK st.entries key { item := r, tMs := if ttlSec = 0 then 0 else now + ttlSec * 1000 } })

/-- node-cache `getTtl`: the deadline timestamp in milliseconds of a live
entry (0 for an unlimited entry, `none` when absent or expired). This is
a timestamp, not a remaining duration: feeding it back into `set` as a
ttl in seconds is the MemoryCache.get slip examined below. -/
def ncGetTtl (st : MemoryState) (now : Nat) (key : Str) : Option Nat :=
  match lookupA st.entries key with
  | none => none
  | some e => if ncLive now e then some e.tMs else none

/-- MemoryCache.get: on a node-cache hit, increments `hitCount` on the
stored record (in place, `useClones:false`) and re-stores the record with
`this.cache.getTtl(key) || CACHE.TTL` as the ttl argument; a thrown
`ECACHEFULL` from the inner set is caught and surfaces as a miss. -/
def mget (cfg : CacheConfig) (st : MemoryState) (now : Nat) (key : Str) :
    Option MemRecord × MemoryState :=
  match ncGet st now key with
  | (none, st1) => (none, st1)
  | (some r, st1) =>
    let r1 := { r with hitCount := r.hitCount + 1 }
    let st2 := { st1 with entries := mapValK st1.entries key (fun e => { e with item := r1 }) }
    let tRaw := (ncGetTtl st2 now key).getD 0
    let ttlArg := if tRaw = 0 then cfg.ttl else tRaw
    match ncSet cfg st2 now key r1 ttlArg with
    | (true, st3) => (some r1, st3)
    | (false, st3) => (none, st3)

/-- One step of the bulk-eviction loop in MemoryCache.set: node-cache get
(removing an expired entry as a side effect), then subtract the found
size and delete the key. -/
def evictStep (now : Nat) (st : MemoryState) (k : Str) : MemoryState :=
  match ncGet st now k with
  | (some r, st1) =>
    { entries := eraseK st1.entries k, currentCacheSize := st1.currentCacheSize - (r.size : Int) }
  | (none, st1) => st1

/-- The storing tail of MemoryCache.set: compute ttl and expiry, build the
record, node-cache set, and add the admitted length to the accumulator. -/
def msetStore (cfg : CacheConfig) (st : MemoryState) (now : Nat) (key : Str) (value : Bytes)
    (ttlOpt : Option Nat) (ct etag : Option Str) (lm : Option Nat) : Bool × MemoryState :=
  let ttl := jsTtl cfg ttlOpt
  let r : MemRecord :=
    { data := value, size := value.length, contentType := ct, etag := etag,
      lastModified := lm, createdAt := now, expiresAt := now + ttl * 1000, hitCount := 0 }
  match ncSet cfg st now key r ttl with
  | (true, st1) => (true, { st1 with currentCacheSize := st1.currentCacheSize + (value.length : Int) })
  | (false, st1) => (false, st1)

/-- MemoryCache.set: when admitting the value would push
`currentCacheSize + value.length` past `CACHE.MAX_SIZE`, bulk-evict the
first ~20% of the keys in enumeration order, and reject (returning false,
with the evictions retained) if the accumulator still overflows;
otherwise store the record. -/
def mset (cfg : CacheConfig) (st : MemoryState) (now : Nat) (key : Str) (value : Bytes)
    (ttlOpt : Option Nat) (ct etag : Option Str) (lm : Option Nat) : Bool × MemoryState :=
  if cfg.maxSize < st.currentCacheSize + (value.length : Int) then
    let ks := st.entries.map Prod.fst
    let st1 := if ks.isEmpty then st else (ks.take (ceilFifth ks.length)).foldl (evictStep now) st
    if cfg.maxSize < st1.currentCacheSize + (value.length : Int) then (false, st1)
    else msetStore cfg st1 now key value ttlOpt ct etag lm
  else msetStore cfg st now key value ttlOpt ct etag lm

/-- MemoryCache.exists: `this.cache.has(key)`, presence of a live entry
(used here only as a final observation of a state). -/
def mexists (st : MemoryState) (now : Nat) (key : Str) : Bool :=
  match lookupA st.entries key with
  | some e => ncLive now e
  | none => false

/-!
Section: Shared CacheItem (cache-interface.ts)

The item surfaced by every backend `get`. `hitCount` is optional in the
interface; the Cassandra backend never produces it.
-/

/-- The CacheItem of the backend interface. -/
structure CacheItem where
  data : Bytes
  size : Nat
  contentType : Option Str
  etag : Option Str
  lastModified : Option Nat
  createdAt : Nat
  expiresAt : Nat
  hitCount : Option Nat
deriving DecidableEq

/-- The `field || undefined` read-back of a string field stored with
`options.field || an-empty-string` (an empty string decodes to absent). -/
def optOfStr (s : Str) : Option Str := if s.isEmpty then none else some s

/-!
Section: Redis backend (class RedisCache, src/services/cache/redis-cache.ts)

A cache item is stored as a hash of fields written by `hmset`; `data`
holds the base64 text of the payload. Base64 encoding is a bijection on
byte strings that sends exactly the empty payload to the empty string, so
the model stores the raw bytes and renders the JavaScript falsiness test
`!data` as emptiness of the payload. The `pipeline.expire(key, ttl)`
native deadline is kept alongside the hash; a key whose deadline has been
reached behaves as absent (Redis removes it). Key-prefixing by
`REDIS.KEY_PREFIX` is a bijective rename shared by every operation and is
dropped from the model.
-/

/-- The hash of fields stored per key by RedisCache.set together with the
native `expire` deadline in milliseconds. -/
structure RedisHash where
  data : Bytes
  size : Nat
  contentType : Str
  etag : Str
  lastModified : Option Nat
  createdAt : Nat
  expiresAt : Nat
  hitCount : Nat
  nativeDeadline : Nat
deriving DecidableEq

/-- The Redis keyspace under the configured prefix, in enumeration order
(the order `keys()` reports; arbitrary in the store, fixed in the model). -/
structure RedisState where
  entries : List (Str × RedisHash)
deriving DecidableEq

/-- The empty Redis keyspace. -/
def emptyRedis : RedisState := { entries := [] }

/-- A stored hash is visible iff its native deadline has not been reached. -/
def rVisible (now : Nat) (h : RedisHash) : Bool := now < h.nativeDeadline

/-- Lookup of a visible hash (an expired key reads as absent: `hmget`
returns nulls for it). -/
def rLookup (st : RedisState) (now : Nat) (key : Str) : Option RedisHash :=
  match lookupA st.entries key with
  | some h => if rVisible now h then some h else none
  | none => none

/-- The live keys under the prefix, in enumeration order (`keys()`). -/
def rKeys (st : RedisState) (now : Nat) : List Str :=
  (st.entries.filter (fun e => rVisible now e.2)).map Prod.fst

/-- RedisCache.delete: `del` removes the key and reports whether a live
key was removed. -/
def rdelete (st : RedisState) (now : Nat) (key : Str) : Bool × RedisState :=
  ((rLookup st now key).isSome, { entries := eraseK st.entries key })

/-- RedisCache.incrementHitCount on a present key: `hincrby key hitCount 1`
(the claims exercise it only on keys that exist, where it bumps the
stored field). -/
def rIncrHit (st : RedisState) (key : Str) : RedisState :=
  { entries := mapValK st.entries key (fun h => { h with hitCount := h.hitCount + 1 }) }

/-- RedisCache.get: `hmget` all fields; miss when the key is absent or the
`data` field is falsy (the empty base64 text, i.e. an empty payload);
delete-and-miss when the stored `expiresAt` lies strictly in the past;
otherwise build the item (with the pre-increment `hitCount`) and bump the
stored hit counter. -/
def rget (st : RedisState) (now : Nat) (key : Str) : Option CacheItem × RedisState :=
  match rLookup st now key with
  | none => (none, st)
  | some h =>
    if h.data.isEmpty then (none, st)
    else if h.expiresAt < now then (none, (rdelete st now key).2)
    else
      (some { data := h.data, size := h.size, contentType := optOfStr h.contentType,
              etag := optOfStr h.etag, lastModified := h.lastModified,
              createdAt := h.createdAt, expiresAt := h.expiresAt,
              hitCount := some h.hitCount },
       rIncrHit st key)

/-- RedisCache.set: derive the ttl via `options.ttl || CACHE.TTL`, write
all hash fields (`hitCount` reset to the text 0) and `expire key ttl` in
one pipeline; reports success. -/
def rset (cfg : CacheConfig) (st : RedisState) (now : Nat) (key : Str) (value : Bytes)
    (ttlOpt : Option Nat) (ct etag : Option Str) (lm : Option Nat) : Bool × RedisState :=
  let ttl := jsTtl cfg ttlOpt
  let h : RedisHash :=
    { data := value, size := value.length, contentType := ct.getD [], etag := etag.getD [],
      lastModified := lm, createdAt := now, expiresAt := now + ttl * 1000,
      hitCount := 0, nativeDeadline := now + ttl * 1000 }
  (true, { entries := setK st.entries key h })

/-- RedisCache.exists: `exists key > 0`. -/
def rexists (st : RedisState) (now : Nat) (key : Str) : Bool :=
  (rLookup st now key).isSome

/-- An entry of the list returned by `getItemsByHitCount`. -/
structure HitItem where
  key : Str
  hitCount : Nat
  size : Nat
  createdAt : Nat
deriving DecidableEq

/-- Stable insertion of one item into a list ascending by `hitCount`
(the comparator `a.hitCount - b.hitCount` under the stable array sort). -/
def insertByHit (x : HitItem) : List HitItem → List HitItem
  | [] => [x]
  | y :: ys => if x.hitCount < y.hitCount then x :: y :: ys else y :: insertByHit x ys

/-- Stable sort ascending by `hitCount`. -/
def sortByHit : List HitItem → List HitItem
  | [] => []
  | x :: xs => insertByHit x (sortByHit xs)

/-- RedisCache.getItemsByHitCount: enumerate the keys, slice the first
`limit` of them, read `hitCount`, `size` and `createdAt` for each, and
sort that slice ascending by `hitCount`. The slice is taken before the
sort, so the result is lowest-first only within the first `limit` keys of
the enumeration. -/
def rItemsByHitCount (st : RedisState) (now : Nat) (limit : Nat) : List HitItem :=
  sortByHit (((rKeys st now).take limit).filterMap (fun k =>
    (rLookup st now k).map (fun h =>
      { key := k, hitCount := h.hitCount, size := h.size, createdAt := h.createdAt })))

/-!
Section: Cassandra backend (class CassandraCache, src/services/cache/cassandra-cache.ts)

A row of `<keyspace>.<table>`: the schema has no hit counter column, and
the class provides no increment of one. The `USING TTL` native expiry is
the row deadline; a row whose deadline has been reached reads as absent.
-/

/-- A row of the Cassandra cache table. -/
structure CassRow where
  data : Bytes
  size : Nat
  contentType : Option Str
  etag : Option Str
  lastModified : Option Nat
  createdAt : Nat
  expiresAt : Nat
  nativeDeadline : Nat
deriving DecidableEq

/-- The Cassandra table keyed by `cache_key`. -/
structure CassState where
  rows : List (Str × CassRow)
deriving DecidableEq

/-- The empty Cassandra table. -/
def emptyCass : CassState := { rows := [] }

/-- Visibility of a row under its `USING TTL` deadline. -/
def cVisible (now : Nat) (row : CassRow) : Bool := now < row.nativeDeadline

/-- SELECT of a visible row by key. -/
def cLookup (st : CassState) (now : Nat) (key : Str) : Option CassRow :=
  match lookupA st.rows key with
  | some row => if cVisible now row then some row else none
  | none => none

/-- CassandraCache.delete: DELETE by key (reported successful). -/
def cdelete (st : CassState) (key : Str) : Bool × CassState :=
  (true, { rows := eraseK st.rows key })

/-- CassandraCache.get: SELECT the row; miss when absent; delete-and-miss
when `expires_at` lies strictly in the past; otherwise return the item.
The row holds no hit counter and none is incremented, so the item carries
no `hitCount` and the state of the table is untouched by a hit. -/
def cget (st : CassState) (now : Nat) (key : Str) : Option CacheItem × CassState :=
  match cLookup st now key with
  | none => (none, st)
  | some row =>
    if row.expiresAt < now then (none, (cdelete st key).2)
    else
      (some { data := row.data, size := row.size, contentType := row.contentType,
              etag := row.etag, lastModified := row.lastModified,
              createdAt := row.createdAt, expiresAt := row.expiresAt, hitCount := none },
       st)

/-- CassandraCache.set: INSERT the row `USING TTL ttl` with
`expires_at = now + ttl * 1000`; the `options.field || null` writes send
an empty string to null. -/
def cset (cfg : CacheConfig) (st : CassState) (now : Nat) (key : Str) (value : Bytes)
    (ttlOpt : Option Nat) (ct etag : Option Str) (lm : Option Nat) : Bool × CassState :=
  let ttl := jsTtl cfg ttlOpt
  let row : CassRow :=
    { data := value, size := value.length,
      contentType := match ct with | some s => if s.isEmpty then none else some s | none => none,
      etag := match etag with | some s => if s.isEmpty then none else some s | none => none,
      lastModified := lm, createdAt := now, expiresAt := now + ttl * 1000,
      nativeDeadline := now + ttl * 1000 }
  (true, { rows := setK st.rows key row })

/-- CassandraCache.exists: SELECT of the key with LIMIT 1. -/
def cexists (st : CassState) (now : Nat) (key : Str) : Bool :=
  (cLookup st now key).isSome

/-!
Section: Hybrid backend (class HybridCache, src/services/cache/hybrid-cache.ts)

The configuration with both tiers connected. `get` reads L1 first; on an
L1 miss and L2 hit it promotes the item into L1 with the remaining ttl
`Math.max(1, Math.floor((expiresAt - Date.now()) / 1000))` (a
fire-and-forget set, modelled at the same instant). On naturals the
truncated subtraction agrees with the JavaScript expression: a negative
remainder floors to a nonpositive value that the outer max lifts to 1.
-/

/-- The promotion ttl in seconds computed by HybridCache.get. -/
def promotionTtl (expiresAt now : Nat) : Nat := max 1 ((expiresAt - now) / 1000)

/-- HybridCache.get in the both-connected configuration: L1 first, then
L2 with promotion into L1. -/
def hybridGet (cfg : CacheConfig) (r : RedisState) (c : CassState) (now : Nat) (key : Str) :
    Option CacheItem × RedisState × CassState :=
  match rget r now key with
  | (some it, r1) => (some it, r1, c)
  | (none, r1) =>
    match cget c now key with
    | (none, c1) => (none, r1, c1)
    | (some it, c1) =>
      let r2 := (rset cfg r1 now key it.data (some (promotionTtl it.expiresAt now))
        it.contentType it.etag it.lastModified).2
      (some it, r2, c1)

/-!
Section: Capacity manager, redis mode (class CacheCapacityManager)

`checkAndManageCapacity` in mode redis reads
`backend.getCapacityInfo()` and, when `usedPercentage` is at least the
redis threshold, calls
`evictLeastUsedItems(backend, Math.ceil(itemCount * 0.2))`. The
percentage is the store-reported memory ratio, supplied here as a
parameter; `itemCount` is the keyspace enumeration length. Eviction asks
`getItemsByHitCount` for that many items and deletes every returned key.
-/

/-- CacheCapacityManager.evictLeastUsedItems on the Redis backend: fetch
`getItemsByHitCount(itemCount)` and delete each returned key. -/
def evictLeastUsedItems (st : RedisState) (now : Nat) (itemCount : Nat) : RedisState :=
  ((rItemsByHitCount st now itemCount).map HitItem.key).foldl
    (fun s k => (rdelete s now k).2) st

/-- CacheCapacityManager.manageRedisCapacity (one capacity tick in mode
redis): evict when the used percentage reaches the threshold. -/
def manageRedisCapacity (st : RedisState) (now : Nat) (threshold usedPercentage : ℚ) : RedisState :=
  if threshold ≤ usedPercentage then
    evictLeastUsedItems st now (ceilFifth (rKeys st now).length)
  else st

/-!
Section: Path parsing and the cache key (s3-service.ts, utils/cache-v2.ts)
-/

/-- Split a character list on a separator character (`String.split`). -/
def splitOnCharAux (sep : Char) : List Char → List Char → List (List Char)
  | [], acc => [acc.reverse]
  | c :: cs, acc =>
    if c = sep then acc.reverse :: splitOnCharAux sep cs [] else splitOnCharAux sep cs (c :: acc)

/-- The split `path.split(sep)`. -/
def splitOnChar (sep : Char) (s : Str) : List Str := splitOnCharAux sep s []

/-- Whether a string starts with the given pattern. -/
def startsWithStr : Str → Str → Bool
  | [], _ => true
  | _ :: _, [] => false
  | p :: ps, c :: cs => p = c && startsWithStr ps cs

/-- The test `s.includes(pat)`: some suffix of `s` starts with `pat`. -/
def includesStr (pat : Str) : Str → Bool
  | [] => startsWithStr pat []
  | c :: cs => startsWithStr pat (c :: cs) || includesStr pat cs

/-- The test `key.endsWith(suffix)`. -/
def endsWithStr (suffix s : Str) : Bool := startsWithStr suffix.reverse s.reverse

/-- Concatenate strings with a slash between them (`parts.join(sep)`). -/
def joinWith (sep : Str) : List Str → Str
  | [] => []
  | [p] => p
  | p :: ps => p ++ sep ++ joinWith sep ps

/-- The test of the regular expression `\.[a-zA-Z0-9]+$`: the text after
the last dot is nonempty and alphanumeric (an earlier dot cannot match
because the later dot is not alphanumeric). -/
def hasFileExtension (s : Str) : Bool :=
  let parts := splitOnChar '.' s
  decide (2 ≤ parts.length) && (!parts.getLast!.isEmpty) && parts.getLast!.all Char.isAlphanum

/-- S3Service.parseObjectPath: split on slashes dropping empty segments;
no segment is an error (`none`); a single segment is a key in the default
bucket; otherwise the first segment is the bucket when it has no file
extension, else the whole path is a key in the default bucket. -/
def parseObjectPath (defaultBucket : Str) (path : Str) : Option (Str × Str) :=
  let parts := (splitOnChar '/' path).filter (fun p => !p.isEmpty)
  match parts with
  | [] => none
  | [p] => some (defaultBucket, p)
  | first :: rest =>
    if !hasFileExtension first then some (first, joinWith ['/'] rest)
    else some (defaultBucket, joinWith ['/'] (first :: rest))

/-- generateCacheKey (utils/cache-v2.ts) as invoked by the CDN handler,
which passes only the range header: the url joined by a bar to the JSON
text of the relevant-header object. -/
def generateCacheKey (url : Str) (range : Option Str) : Str :=
  url ++ ("|".data) ++ (match range with
    | some r => ("\x7b\"range\":\"").data ++ r ++ ("\"\x7d").data
    | none => ("\x7b\x7d").data)

/-- The default bucket `S3.BUCKET_NAME` (its configured default). -/
def defaultBucket : Str := "vod-archive".data

example : parseObjectPath defaultBucket ("nami/videos/a.mp4".data)
    = some ("nami".data, "videos/a.mp4".data) := by decide
example : parseObjectPath defaultBucket ("nami/".data) = some (defaultBucket, "nami".data) := by
  decide

/-!
Section: The CDN GET handler (src/cdn-routes.ts) and the streaming cache fill

The origin response carries the streamed body as its list of data chunks.
The handler is modelled on the memory backend (the default cache mode)
and only down to its effect on the cache state, which is what the claims
about it concern.
-/

/-- An origin GetObject response (the S3 service return value). -/
structure S3Resp where
  body : Option (List Bytes)
  contentType : Option Str
  contentLength : Option Nat
  etag : Option Str
  lastModified : Option Nat
  contentRange : Option Str
deriving DecidableEq

/-- Modelled from the spec: `detectContentType` of utils/helpers.ts is not
among the provided sources; section 4.9 of the specification describes it
as inference of the MIME type from the file extension of the key. The
claims below never depend on its value. -/
def detectContentType (key : Str) : Str :=
  if endsWithStr (".m3u8".data) key then "application/vnd.apple.mpegurl".data
  else if endsWithStr (".ts".data) key then "video/mp2t".data
  else if endsWithStr (".mp4".data) key then "video/mp4".data
  else "application/octet-stream".data

/-- The handler content-type resolution: a missing, empty or
`application/octet-stream` origin type is replaced by the inferred one. -/
def resolveContentType (ct : Option Str) (key : Str) : Str :=
  match ct with
  | none => detectContentType key
  | some s =>
    if s.isEmpty then detectContentType key
    else if s = ("application/octet-stream").data then detectContentType key else s

/-- The path resolution of the mounted GET handler of src/cdn-routes.ts:
the quirk prepending `nami/` when the extracted path has no `/cdn`
substring, the empty-path rejection (`none`, answered 400), and bucket
and key parsing (`none` when the parse throws, answered by the catch). -/
def cdnResolve (path : Str) : Option (Str × Str) :=
  let cdnPath := if includesStr ("/cdn".data) path then path else ("nami/".data) ++ path
  if cdnPath.isEmpty then none
  else parseObjectPath defaultBucket cdnPath

/-- The cache effect of the mounted GET handler of src/cdn-routes.ts:
path resolution as above, the cache lookup that is skipped for range
requests, and the stream tee that collects every data chunk and on
stream end inserts the concatenation under the cache key whenever any
bytes arrived. -/
def cdnRoutesServe (cfg : CacheConfig) (st : MemoryState) (now : Nat) (path : Str)
    (range : Option Str) (s3 : S3Resp) : MemoryState :=
  match cdnResolve path with
    | none => st
    | some (bucket, key) =>
      let cacheKey := generateCacheKey (bucket ++ ("/".data) ++ key) range
      let lookupRes := if range.isNone then mget cfg st now cacheKey else (none, st)
      match lookupRes with
      | (some _, st1) => st1
      | (none, st1) =>
        match s3.body with
        | none => st1
        | some chunks =>
          let contentType := resolveContentType s3.contentType key
          if (!chunks.isEmpty) && decide (0 < sumLen chunks) then
            (mset cfg st1 now cacheKey chunks.flatten none (some contentType) s3.etag
              s3.lastModified).2
          else st1

/-- The cache size ceiling of the streaming path, 5 MiB. -/
def smax : Nat := 5242880

/-- The `shouldCache` guard of the M3U8-aware variant of the CDN route
handler: no range header, a truthy advertised content length, and that
length strictly below 5 MiB. -/
def shouldCacheGuard (range : Option Str) (contentLength : Option Nat) : Bool :=
  range.isNone && (match contentLength with
    | some c => decide (c ≠ 0) && decide (c < smax)
    | none => false)

/-- One data event of the guarded tee: push the chunk and add its length;
when the running total passes 5 MiB, discard the buffer and stop
collecting (reset both accumulators). -/
def teeStep (acc : List Bytes × Nat) (chunk : Bytes) : List Bytes × Nat :=
  let buf := acc.1 ++ [chunk]
  let total := acc.2 + chunk.length
  if smax < total then ([], 0) else (buf, total)

/-- The cache effect of the non-M3U8 streaming tail of the M3U8-aware
variant handler: when `shouldCache` holds, collect the chunks through the
tee and on stream end admit the concatenation if the buffer is nonempty
and the total is positive and still below 5 MiB. -/
def guardedStreamFill (cfg : CacheConfig) (st : MemoryState) (now : Nat) (cacheKey : Str)
    (range : Option Str) (s3 : S3Resp) (contentType : Str) : MemoryState :=
  match s3.body with
  | none => st
  | some chunks =>
    if shouldCacheGuard range s3.contentLength then
      let bt := chunks.foldl teeStep ([], 0)
      if (!bt.1.isEmpty) && decide (0 < bt.2) && decide (bt.2 < smax) then
        (mset cfg st now cacheKey bt.1.flatten none (some contentType) s3.etag s3.lastModified).2
      else st
    else st

/-!
Section: Concrete traces used by the claim theorems
-/

/-- A short key. -/
def kK : Str := "k".data

/-- Memory trace: a one-byte item set at time 0 with ttl 1 second. -/
def memTrace1 : MemoryState := (mset defaultConfig emptyMem 0 kK [7] (some 1) none none none).2

/-- Memory trace continued: a get of the same key at 500 ms, well before
the one-second expiry. -/
def memTrace2 : MemoryState := (mget defaultConfig memTrace1 500 kK).2

/-- Cassandra trace: a two-byte item set at time 0 with ttl 60 seconds. -/
def cassTrace1 : CassState := (cset defaultConfig emptyCass 0 kK [7, 8] (some 60) none none none).2

/-- Cassandra state for the promotion counterexample: a one-byte item set
at time 0 with ttl 60 seconds, to be read 500 ms before its expiry. -/
def promoCass : CassState := (cset defaultConfig emptyCass 0 kK [7] (some 60) none none none).2

/-- The origin response of the ranged request of the C1 scenario: a 206
body of two bytes with the full-object metadata. -/
def rangedS3 : S3Resp :=
  { body := some [[71, 72]], contentType := some ("video/mp4".data),
    contentLength := some 4194304, etag := none, lastModified := none,
    contentRange := some ("bytes 0-1023/4194304".data) }

/-- The range header of the C1 scenario. -/
def rangeHdr : Str := "bytes=0-1023".data

/-- The memory cache after the mounted handler serves the ranged GET of
`videos/a.mp4` from an empty cache. -/
def c1After : MemoryState :=
  cdnRoutesServe defaultConfig emptyMem 0 ("videos/a.mp4".data) (some rangeHdr) rangedS3

/-- The cache key the handler derives for that ranged request. -/
def c1Key : Str := generateCacheKey ("nami/videos/a.mp4".data) (some rangeHdr)

/-- A Redis keyspace of two live items in enumeration order: key a with
hit count 5 before key b with hit count 1. -/
def c3Redis : RedisState :=
  { entries :=
      [("a".data,
        { data := [1], size := 1, contentType := [], etag := [], lastModified := none,
          createdAt := 0, expiresAt := 1000000, hitCount := 5, nativeDeadline := 1000000 }),
       ("b".data,
        { data := [2], size := 1, contentType := [], etag := [], lastModified := none,
          createdAt := 0, expiresAt := 1000000, hitCount := 1, nativeDeadline := 1000000 })] }

/-- A small memory configuration with a 100-byte size ceiling. -/
def smallCfg : CacheConfig := { ttl := 300, maxSize := 100, maxItems := 1000 }

/-- A memory cache holding one three-byte item under the small
configuration. -/
def c4Before : MemoryState := (mset smallCfg emptyMem 0 ("a".data) [9, 9, 9] none none none none).2

/-- An oversize payload of 101 bytes against the 100-byte ceiling. -/
def oversizeV : Bytes := List.replicate 101 0

/-- Redis keyspace after storing an empty payload with ttl 60 at time 0. -/
def c7Redis1 : RedisState := (rset defaultConfig emptyRedis 0 kK [] (some 60) none none none).2

/-- The origin response of the C9 boundary scenario: an advertised length
of exactly 5 MiB with a body of that many zero bytes. -/
def c9S3 : S3Resp :=
  { body := some [List.replicate smax 0], contentType := some ("video/mp4".data),
    contentLength := some smax, etag := none, lastModified := none, contentRange := none }

/-!
Section: Claim theorems: evaluations at failing inputs and counterexamples
-/

/-- C1: the claim states that a GET carrying a Range header never inserts
into the cache, leaving no entry under the key derived from
(bucket, key, range). Evaluating the mounted handler of src/cdn-routes.ts
at the failing input (GET `videos/a.mp4` with `Range: bytes=0-1023`, an
empty memory cache, a 206 body of two bytes): after the stream ends the
cache does contain an entry under exactly that key, holding the partial
body — the tee of the mounted handler collects and inserts with no range
guard (its sibling variant restricted this with `shouldCache`). -/
theorem c1_range_request_inserts_into_cache :
    mexists c1After 0 c1Key = true ∧
    ((mget defaultConfig c1After 0 c1Key).1).map MemRecord.data = some [71, 72] := by
  decide

/-- C5: the claim states that once wall time passes the ttl, a get
returns null and exists is false regardless of intervening operations.
Evaluation at the failing input: on the memory backend, set key k with
ttl 1 s at time 0, get it at 500 ms, then observe at 2000 ms (well past
the 1 s ttl): the get still returns the item and exists still reports
true, because MemoryCache.get re-stored the item with
`getTtl(key) || CACHE.TTL` — a millisecond deadline timestamp fed back
as a ttl in seconds, extending the node-cache deadline to 1000500 ms. -/
theorem c5_ttl_extension_bug :
    (mset defaultConfig emptyMem 0 kK [7] (some 1) none none none).1 = true ∧
    ((mget defaultConfig memTrace1 500 kK).1).isSome = true ∧
    ((mget defaultConfig memTrace2 2000 kK).1).isSome = true ∧
    mexists (mget defaultConfig memTrace2 2000 kK).2 2000 kK = true := by
  decide

/-- C6: the claim states that a get finding a stored item with
`expiresAt` in the past behaves as a miss and removes the item.
Evaluation at the failing input (the same memory trace as C5): the get at
2000 ms finds the stored item whose `expiresAt` is 1000 ms — strictly in
the past — yet returns it, and the item is still present afterwards. -/
theorem c6_expired_item_returned_bug :
    ((mget defaultConfig memTrace2 2000 kK).1).map MemRecord.expiresAt = some 1000 ∧
    (1000 : Nat) < 2000 ∧
    lookupA ((mget defaultConfig memTrace2 2000 kK).2).entries kK ≠ none := by
  decide

/-- C8: the claim states that every backend increments a stored hit
counter on each successful get. Evaluation at the failing input: on the
Cassandra backend, after a successful set, a successful get returns the
item with no hit count at all and leaves the table byte-for-byte
unchanged — the schema has no hit counter column and CassandraCache.get
increments nothing (the class does not even define the increment and
by-hit-count scan operations its declared interface requires). -/
theorem c8_cassandra_no_hitcount_bug :
    (cset defaultConfig emptyCass 0 kK [7, 8] (some 60) none none none).1 = true ∧
    ((cget cassTrace1 1000 kK).1).map CacheItem.hitCount = some none ∧
    (cget cassTrace1 1000 kK).2 = cassTrace1 := by
  decide

/-- C2 counterexample: the claim states the promoted copy expiry never
exceeds the L2 expiry. At the concrete input (L2 item expiring at
60000 ms, hybrid get at 59500 ms, so 500 ms remain) the promotion ttl is
`max(1, floor(500/1000)) = 1` and the promoted L1 hash expires at
60500 ms, strictly later than the L2 expiry of 60000 ms. -/
theorem c2_promotion_extends_lifetime_counterexample :
    ((cget promoCass 59500 kK).1).map CacheItem.expiresAt = some 60000 ∧
    (rLookup (hybridGet defaultConfig emptyRedis promoCass 59500 kK).2.1 59500 kK).map
      RedisHash.expiresAt = some 60500 ∧
    (60000 : Nat) < 60500 := by
  decide

/-- C3 counterexample: the claim states the items evicted on an
over-threshold redis tick are those of lowest hit count among all items.
At the concrete input (two live items: key a with hit count 5 enumerated
first, key b with hit count 1; used percentage 90 against threshold 85)
the tick evicts key a — hit count 5 — while key b with the minimum hit
count 1 survives, because `getItemsByHitCount` slices the first
`ceil(0.2 * itemCount)` keys of the enumeration before sorting. -/
theorem c3_eviction_not_least_used_counterexample :
    (manageRedisCapacity c3Redis 0 85 90).entries.map Prod.fst = ["b".data] ∧
    (lookupA c3Redis.entries ("a".data)).map RedisHash.hitCount = some 5 ∧
    (lookupA c3Redis.entries ("b".data)).map RedisHash.hitCount = some 1 := by
  decide

/-- C4 counterexample: the claim states an oversize memory set returns
false and leaves prior items unchanged. At the concrete input (ceiling
100 bytes, one stored 3-byte item, a 101-byte value) the set does return
false but has already bulk-evicted the stored item: the cache is empty
afterwards. -/
theorem c4_oversize_set_evicts_counterexample :
    (mset smallCfg c4Before 0 ("b".data) oversizeV none none none none).1 = false ∧
    ((mset smallCfg c4Before 0 ("b".data) oversizeV none none none none).2).entries = [] ∧
    c4Before.entries.length = 1 := by
  decide

/-- C7 counterexample: the claim states that immediately after a
successful set of payload v with ttl T, get returns an item with
`data = v`, `size = len(v)` and `expiresAt = now + T`. Two concrete
refutations: on Redis, a successful set of the empty payload is followed
by an immediate miss (the stored base64 text is empty and fails the
JavaScript truthiness test `!data`); on memory, a set with `ttl = 0` is
successful but stores `expiresAt = now + 300 s` — the `options.ttl ||
CACHE.TTL` fallback — rather than `now + T`. -/
theorem c7_roundtrip_counterexample :
    (rset defaultConfig emptyRedis 0 kK [] (some 60) none none none).1 = true ∧
    (rget c7Redis1 0 kK).1 = none ∧
    (mset defaultConfig emptyMem 0 kK [7] (some 0) none none none).1 = true ∧
    ((mget defaultConfig (mset defaultConfig emptyMem 0 kK [7] (some 0) none none none).2
      0 kK).1).map MemRecord.expiresAt = some 300000 ∧
    (300000 : Nat) ≠ 0 + 0 * 1000 := by
  decide

/-- C9 counterexample: the claim states an object advertised at exactly
5 MiB is admitted to the cache after the stream ends. At the concrete
input (no range, advertised content length exactly `smax`, a body of
exactly that many bytes, an empty cache) the guarded streaming path
admits nothing: `shouldCache` requires the advertised length to be
strictly below 5 MiB. -/
theorem c9_smax_not_cached_counterexample :
    guardedStreamFill defaultConfig emptyMem 0 kK none c9S3 ("video/mp4".data) = emptyMem ∧
    mexists (guardedStreamFill defaultConfig emptyMem 0 kK none c9S3 ("video/mp4".data)) 0 kK
      = false :=
  ⟨rfl, rfl⟩

/-- C10 counterexample: the claim states every extracted path without the
`/cdn` substring resolves to bucket `nami` with the original path as the
key. Two concrete refutations: the empty path resolves to the default
bucket with key `nami` (the prepended `nami/` collapses to a single
segment, which parses as a key in the default bucket); and the path
`a//b.mp4` resolves with key `a/b.mp4`, not the original path, because
parsing drops empty segments. -/
theorem c10_path_quirk_counterexample :
    cdnResolve ("".data) = some (defaultBucket, "nami".data) ∧
    defaultBucket ≠ "nami".data ∧
    cdnResolve ("a//b.mp4".data) = some ("nami".data, "a/b.mp4".data) ∧
    "a/b.mp4".data ≠ "a//b.mp4".data := by
  decide

/-!
Section: Amended claims, proofs
-/

theorem promotion_expiry_le (e now : Nat) :
    now + promotionTtl e now * 1000 ≤ max e (now + 1000) ∧
    (1000 ≤ e - now → now + promotionTtl e now * 1000 ≤ e) := by
  unfold promotionTtl
  rcases Nat.lt_or_ge (e - now) 1000 with hlt | hge
  · have hq : (e - now) / 1000 = 0 := Nat.div_eq_of_lt hlt
    rw [hq]
    constructor
    · have : max 1 0 = 1 := rfl
      rw [this]
      exact le_trans (by omega) (Nat.le_max_right e (now + 1000))
    · intro hc; omega
  · have hq : 1 ≤ (e - now) / 1000 := (Nat.le_div_iff_mul_le (by norm_num)).2 (by omega)
    have hmax : max 1 ((e - now) / 1000) = (e - now) / 1000 := Nat.max_eq_right hq
    rw [hmax]
    have hmul : (e - now) / 1000 * 1000 ≤ e - now := Nat.div_mul_le_self _ _
    have henow : now ≤ e := by omega
    constructor
    · exact le_trans (by omega) (Nat.le_max_left e (now + 1000))
    · intro hc; omega

/-- C2 amended: on an L1 miss and an L2 hit, the hash the promotion
writes into L1 carries an expiry no later than the maximum of the L2
item expiry and one second past the promotion instant — and no later
than the L2 item expiry itself whenever at least one full second of
lifetime remains. (The clamp `Math.max(1, ...)` keeps the Redis ttl
positive, which is what admits the up-to-one-second overshoot of the
counterexample.) -/
theorem c2_promotion_bounded_amended (cfg : CacheConfig) (r : RedisState) (c : CassState)
    (now : Nat) (key : Str) (it : CacheItem) (r1 : RedisState) (c1 : CassState)
    (hl1 : rget r now key = (none, r1)) (hl2 : cget c now key = (some it, c1)) (h : RedisHash)
    (hlook : lookupA ((hybridGet cfg r c now key).2.1).entries key = some h) :
    h.expiresAt ≤ max it.expiresAt (now + 1000) ∧
    (1000 ≤ it.expiresAt - now → h.expiresAt ≤ it.expiresAt) := by
  have hstate : (hybridGet cfg r c now key).2.1 =
      (rset cfg r1 now key it.data (some (promotionTtl it.expiresAt now))
        it.contentType it.etag it.lastModified).2 := by
    unfold hybridGet
    rw [hl1, hl2]
  rw [hstate] at hlook
  unfold rset at hlook
  simp only [lookupA_setK, Option.some_inj] at hlook
  have httl : jsTtl cfg (some (promotionTtl it.expiresAt now)) = promotionTtl it.expiresAt now := by
    unfold jsTtl promotionTtl
    have : max 1 ((it.expiresAt - now) / 1000) ≠ 0 := by positivity
    simp [this]
  have hexp : h.expiresAt = now + promotionTtl it.expiresAt now * 1000 := by
    rw [← hlook, httl]
  rw [hexp]
  exact promotion_expiry_le it.expiresAt now

theorem c2_promotion_bounded_amended_witness :
    ((lookupA ((hybridGet defaultConfig emptyRedis promoCass 1000 kK).2.1).entries kK).map
      RedisHash.expiresAt).getD 0 ≤ max 60000 2000 := by
  have happ := c2_promotion_bounded_amended defaultConfig emptyRedis promoCass 1000 kK
    ⟨[7], 1, none, none, none, 0, 60000, none⟩ emptyRedis promoCass (by decide) (by decide)
    ⟨[7], 1, [], [], none, 1000, 60000, 0, 60000⟩ (by decide)
  have hlook : lookupA ((hybridGet defaultConfig emptyRedis promoCass 1000 kK).2.1).entries kK
      = some ⟨[7], 1, [], [], none, 1000, 60000, 0, 60000⟩ := by decide
  rw [hlook]
  exact happ.1

theorem length_mapValK {β : Type} (l : List (Str × β)) (key : Str) (f : β → β) :
    (mapValK l key f).length = l.length := by
  induction l with
  | nil => rfl
  | cons hd tl ih =>
    obtain ⟨k, w⟩ := hd
    by_cases h : k = key
    · simp [mapValK, h, ih]
    · simp [mapValK, h, ih]

theorem mset_success_entries (cfg : CacheConfig) (st : MemoryState) (now : Nat) (key : Str)
    (v : Bytes) (T : Nat) (ct etag : Option Str) (lm : Option Nat) (hT : T ≠ 0)
    (hs : (mset cfg st now key v (some T) ct etag lm).1 = true) :
    ∃ l, (mset cfg st now key v (some T) ct etag lm).2.entries =
      setK l key
        { item := { data := v, size := v.length, contentType := ct, etag := etag,
                    lastModified := lm, createdAt := now, expiresAt := now + T * 1000,
                    hitCount := 0 },
          tMs := now + T * 1000 } := by
  have hstore : ∀ stX : MemoryState,
      (msetStore cfg stX now key v (some T) ct etag lm).1 = true →
      (msetStore cfg stX now key v (some T) ct etag lm).2.entries =
        setK stX.entries key
          { item := { data := v, size := v.length, contentType := ct, etag := etag,
                      lastModified := lm, createdAt := now, expiresAt := now + T * 1000,
                      hitCount := 0 },
            tMs := now + T * 1000 } := by
    intro stX hX
    unfold msetStore ncSet at hX ⊢
    by_cases hcap : cfg.maxItems ≤ stX.entries.length
    · simp [jsTtl, hT, hcap] at hX
    · simp [jsTtl, hT, hcap]
  unfold mset at hs ⊢
  by_cases hc1 : cfg.maxSize < st.currentCacheSize + (v.length : Int)
  · simp only [if_pos hc1] at hs ⊢
    by_cases hc2 : cfg.maxSize <
        (if (st.entries.map Prod.fst).isEmpty then st
          else ((st.entries.map Prod.fst).take (ceilFifth (st.entries.map Prod.fst).length)).foldl
            (evictStep now) st).currentCacheSize + (v.length : Int)
    · simp only [if_pos hc2] at hs
      exact absurd hs (by simp)
    · simp only [if_neg hc2] at hs ⊢
      exact ⟨_, hstore _ hs⟩
  · simp only [if_neg hc1] at hs ⊢
    exact ⟨_, hstore _ hs⟩

theorem mget_setK (cfg : CacheConfig) (l : List (Str × MemEntry)) (sz : Int) (now : Nat)
    (key : Str) (E : MemEntry) (hlive : ncLive now E = true) (htl : E.tMs ≠ 0)
    (hcap : (setK l key E).length < cfg.maxItems) :
    (mget cfg { entries := setK l key E, currentCacheSize := sz } now key).1 =
      some { E.item with hitCount := E.item.hitCount + 1 } := by
  have h1 : ncGet { entries := setK l key E, currentCacheSize := sz } now key =
      (some E.item, { entries := setK l key E, currentCacheSize := sz }) := by
    unfold ncGet
    simp [lookupA_setK, hlive]
  have h2 : lookupA (mapValK (setK l key E) key
      (fun e => { e with item := { E.item with hitCount := E.item.hitCount + 1 } })) key =
      some { E with item := { E.item with hitCount := E.item.hitCount + 1 } } := by
    rw [lookupA_mapValK, lookupA_setK]
    rfl
  have h3 : (mapValK (setK l key E) key
      (fun e => { e with item := { E.item with hitCount := E.item.hitCount + 1 } })).length =
      (setK l key E).length := length_mapValK _ _ _
  unfold mget
  rw [h1]
  simp only [ncGetTtl, h2]
  have hlive2 : ncLive now { E with item := { E.item with hitCount := E.item.hitCount + 1 } }
      = true := by
    unfold ncLive at hlive ⊢
    exact hlive
  simp only [hlive2, if_true]
  unfold ncSet
  simp [h3, Nat.not_le.2 hcap, htl]

/-- C7 amended: for a positive ttl T and a nonempty payload v, a get
immediately after a successful set returns an item whose data is v, whose
size is the length of v and whose expiry is the set instant plus T
seconds — on the Redis, Cassandra and Memory backends alike (on Memory,
provided the key table is below its `maxKeys` ceiling, whose breach makes
the inner re-store of the get throw and the get miss). The positivity
and nonemptiness restrictions are those forced by the counterexample:
`ttl: 0` falls back to the default TTL, and an empty payload read back
through Redis fails its truthiness test. -/
theorem c7_roundtrip_amended (cfg : CacheConfig) (now : Nat) (key : Str) (v : Bytes) (T : Nat)
    (r : RedisState) (c : CassState) (stM : MemoryState)
    (ct etag : Option Str) (lm : Option Nat) (hT : 1 ≤ T) (hv : v ≠ []) :
    ((rset cfg r now key v (some T) ct etag lm).1 = true ∧
      ((rget (rset cfg r now key v (some T) ct etag lm).2 now key).1).map
        (fun it => (it.data, it.size, it.expiresAt)) = some (v, v.length, now + T * 1000)) ∧
    ((cset cfg c now key v (some T) ct etag lm).1 = true ∧
      ((cget (cset cfg c now key v (some T) ct etag lm).2 now key).1).map
        (fun it => (it.data, it.size, it.expiresAt)) = some (v, v.length, now + T * 1000)) ∧
    ((mset cfg stM now key v (some T) ct etag lm).1 = true →
      (mset cfg stM now key v (some T) ct etag lm).2.entries.length < cfg.maxItems →
      ((mget cfg (mset cfg stM now key v (some T) ct etag lm).2 now key).1).map
        (fun rr => (rr.data, rr.size, rr.expiresAt)) = some (v, v.length, now + T * 1000)) := by
  have hT0 : T ≠ 0 := by omega
  have hlt : now < now + T * 1000 := by
    have : 1000 ≤ T * 1000 := by
      calc 1000 = 1 * 1000 := by omega
      _ ≤ T * 1000 := Nat.mul_le_mul_right 1000 hT
    omega
  refine ⟨⟨rfl, ?_⟩, ⟨rfl, ?_⟩, ?_⟩
  · unfold rget rset rLookup
    simp only [jsTtl, hT0, if_false, lookupA_setK]
    have hvis : rVisible now
        { data := v, size := v.length, contentType := ct.getD [], etag := etag.getD [],
          lastModified := lm, createdAt := now, expiresAt := now + T * 1000,
          hitCount := 0, nativeDeadline := now + T * 1000 } = true := by
      unfold rVisible
      simpa using hlt
    simp [hvis, hv, Nat.not_lt.2 (Nat.le_add_right now (T * 1000))]
  · simp [cget, cset, cLookup, cVisible, cdelete, jsTtl, hT0, lookupA_setK, hlt,
      Nat.not_lt.2 (Nat.le_add_right now (T * 1000))]
  · intro hs hcap
    obtain ⟨l, hl⟩ := mset_success_entries cfg stM now key v T ct etag lm hT0 hs
    have hstate : (mset cfg stM now key v (some T) ct etag lm).2 =
        { entries := setK l key
            { item := { data := v, size := v.length, contentType := ct, etag := etag,
                        lastModified := lm, createdAt := now, expiresAt := now + T * 1000,
                        hitCount := 0 },
              tMs := now + T * 1000 },
          currentCacheSize := (mset cfg stM now key v (some T) ct etag lm).2.currentCacheSize } := by
      rw [← hl]
    rw [hstate]
    rw [hstate] at hcap
    have := mget_setK cfg l (mset cfg stM now key v (some T) ct etag lm).2.currentCacheSize now key
      { item := { data := v, size := v.length, contentType := ct, etag := etag,
                  lastModified := lm, createdAt := now, expiresAt := now + T * 1000,
                  hitCount := 0 },
        tMs := now + T * 1000 }
      (by unfold ncLive; simp) (by simp; omega) hcap
    rw [this]
    simp

theorem c7_roundtrip_amended_witness :
    ((rget (rset defaultConfig emptyRedis 0 kK [7] (some 60) none none none).2 0 kK).1).map
      (fun it => (it.data, it.size, it.expiresAt)) = some ([7], 1, 60000) ∧
    ((cget (cset defaultConfig emptyCass 0 kK [7] (some 60) none none none).2 0 kK).1).map
      (fun it => (it.data, it.size, it.expiresAt)) = some ([7], 1, 60000) ∧
    ((mget defaultConfig (mset defaultConfig emptyMem 0 kK [7] (some 60) none none none).2
      0 kK).1).map (fun rr => (rr.data, rr.size, rr.expiresAt)) = some ([7], 1, 60000) := by
  have h := c7_roundtrip_amended defaultConfig 0 kK [7] 60 emptyRedis emptyCass emptyMem
    none none none (by norm_num) (by decide)
  refine ⟨?_, ?_, ?_⟩
  · simpa using h.1.2
  · simpa using h.2.1.2
  · have := h.2.2 (by decide) (by decide)
    simpa using this

theorem teeFold_no_reset (chunks : List Bytes) (buf : List Bytes) (t : Nat)
    (h : t + sumLen chunks ≤ smax) :
    chunks.foldl teeStep (buf, t) = (buf ++ chunks, t + sumLen chunks) := by
  induction chunks generalizing buf t with
  | nil => simp [sumLen]
  | cons ch rest ih =>
    have hsum : sumLen (ch :: rest) = ch.length + sumLen rest := by simp [sumLen]
    have hstep : teeStep (buf, t) ch = (buf ++ [ch], t + ch.length) := by
      unfold teeStep
      have hno : ¬ smax < t + ch.length := by omega
      simp [hno]
    rw [List.foldl_cons, hstep, ih (buf ++ [ch]) (t + ch.length) (by omega)]
    simp [hsum]
    omega

/-- C9 amended: on the guarded non-M3U8 streaming path without a range
header, an object whose advertised content length is strictly below
5 MiB (and whose streamed bytes total that length) is admitted to the
cache after the stream ends, while an object advertised at 5 MiB or more
is not admitted. The boundary moves by one against the claim: `shouldCache`
demands `contentLength < 5 MiB`, so an object of exactly 5 MiB is not
admitted. -/
theorem c9_size_boundary_amended :
    (∀ (now : Nat) (key : Str) (c : Nat) (chunks : List Bytes) (ct : Str)
      (etag : Option Str) (lm : Option Nat) (ctO cr : Option Str),
      0 < c → c < smax → chunks ≠ [] → sumLen chunks = c →
      mexists (guardedStreamFill defaultConfig emptyMem now key none
        { body := some chunks, contentType := ctO, contentLength := some c,
          etag := etag, lastModified := lm, contentRange := cr } ct) now key = true) ∧
    (∀ (cfg : CacheConfig) (st : MemoryState) (now : Nat) (key : Str) (c : Nat)
      (chunks : List Bytes) (ct : Str) (etag : Option Str) (lm : Option Nat)
      (ctO cr : Option Str),
      smax ≤ c →
      guardedStreamFill cfg st now key none
        { body := some chunks, contentType := ctO, contentLength := some c,
          etag := etag, lastModified := lm, contentRange := cr } ct = st) := by
  constructor
  · intro now key c chunks ct etag lm ctO cr hc0 hcs hne hsum
    have hguard : shouldCacheGuard none (some c) = true := by
      simp [shouldCacheGuard]
      omega
    have hfold : chunks.foldl teeStep ([], 0) = (chunks, c) := by
      have := teeFold_no_reset chunks [] 0 (by omega)
      simpa [hsum] using this
    unfold guardedStreamFill
    simp only [hguard, if_true, hfold]
    have hlen : ((chunks.flatten).length : Int) = (c : Int) := by
      have : (chunks.flatten).length = sumLen chunks := by
        simp [sumLen]
      rw [this, hsum]
    have hnolim : ¬ (defaultConfig.maxSize <
        emptyMem.currentCacheSize + ((chunks.flatten).length : Int)) := by
      rw [hlen]
      have : (c : Int) < 5242880 := by exact_mod_cast hcs
      simp [defaultConfig, emptyMem]
      omega
    unfold mset
    simp only [if_neg hnolim]
    unfold msetStore ncSet
    simp [defaultConfig, emptyMem, jsTtl, mexists, lookupA, setK, ncLive, hne, hc0, hcs]
  · intro cfg st now key c chunks ct etag lm ctO cr hc
    unfold guardedStreamFill shouldCacheGuard
    simp [Nat.not_lt.2 hc]

theorem c9_size_boundary_amended_witness :
    mexists (guardedStreamFill defaultConfig emptyMem 0 kK none
      { body := some [[1, 2, 3]], contentType := some ("video/mp4".data), contentLength := some 3,
        etag := none, lastModified := none, contentRange := none } ("video/mp4".data)) 0 kK
      = true ∧
    guardedStreamFill defaultConfig emptyMem 0 kK none c9S3 ("video/mp4".data) = emptyMem := by
  constructor
  · exact c9_size_boundary_amended.1 0 kK 3 [[1, 2, 3]] ("video/mp4".data) none none
      (some ("video/mp4".data)) none (by decide) (by decide) (by decide) (by decide)
  · exact c9_size_boundary_amended.2 defaultConfig emptyMem 0 kK smax [List.replicate smax 0]
      ("video/mp4".data) none none (some ("video/mp4".data)) none (le_refl smax)

theorem split_nami_prepend (path : Str) :
    splitOnChar '/' (("nami/".data) ++ path) = ("nami".data) :: splitOnChar '/' path := rfl

/-- C10 amended: a GET whose extracted path lacks the `/cdn` substring
and has at least one nonempty slash-segment is resolved with bucket
`nami` and, as the key, the original path normalized by dropping its
empty segments (equal to the original path whenever it has no leading,
trailing or doubled slashes). The normalization and the nonemptiness
requirement are what the counterexamples force: parsing filters empty
segments, and the empty path collapses to the single segment `nami`,
which parses as a key in the default bucket instead. -/
theorem c10_path_quirk_amended (path : Str)
    (hnc : includesStr ("/cdn".data) path = false)
    (hseg : (splitOnChar '/' path).filter (fun p => !p.isEmpty) ≠ []) :
    cdnResolve path =
      some ("nami".data, joinWith ['/'] ((splitOnChar '/' path).filter (fun p => !p.isEmpty))) := by
  unfold cdnResolve
  simp only [hnc, Bool.false_eq_true, if_false]
  have hne : (("nami/".data) ++ path).isEmpty = false := rfl
  simp only [hne, Bool.false_eq_true, if_false]
  unfold parseObjectPath
  rw [split_nami_prepend]
  have hfil : (("nami".data :: splitOnChar '/' path).filter (fun p => !p.isEmpty)) =
      ("nami".data) :: ((splitOnChar '/' path).filter (fun p => !p.isEmpty)) := by
    simp
  rw [hfil]
  cases hsegs : (splitOnChar '/' path).filter (fun p => !p.isEmpty) with
  | nil => exact absurd hsegs hseg
  | cons s rest =>
    have hext : hasFileExtension ("nami".data) = false := rfl
    simp [hext]

theorem c10_path_quirk_amended_witness :
    cdnResolve ("videos/a.mp4".data) = some ("nami".data, "videos/a.mp4".data) := by
  have h := c10_path_quirk_amended ("videos/a.mp4".data) (by decide) (by decide)
  have hj : joinWith ['/'] ((splitOnChar '/' ("videos/a.mp4".data)).filter
      (fun p => !p.isEmpty)) = "videos/a.mp4".data := by decide
  rw [hj] at h
  exact h

theorem mem_insertByHit (x y : HitItem) (l : List HitItem) :
    x ∈ insertByHit y l ↔ x = y ∨ x ∈ l := by
  induction l with
  | nil => simp [insertByHit]
  | cons z zs ih =>
    unfold insertByHit
    by_cases h : y.hitCount < z.hitCount
    · simp [h]
    · simp [h, ih]
      tauto

theorem mem_sortByHit (x : HitItem) (l : List HitItem) : x ∈ sortByHit l ↔ x ∈ l := by
  induction l with
  | nil => simp [sortByHit]
  | cons z zs ih => simp [sortByHit, mem_insertByHit, ih]

theorem lookupA_eq_of_mem {β : Type} {l : List (Str × β)} {k : Str} {v : β}
    (hnd : (l.map Prod.fst).Nodup) (hmem : (k, v) ∈ l) : lookupA l k = some v := by
  induction l with
  | nil => simp at hmem
  | cons hd tl ih =>
    obtain ⟨k1, w⟩ := hd
    simp only [List.map_cons, List.nodup_cons] at hnd
    rcases List.mem_cons.1 hmem with heq | htl
    · injection heq with hk hv
      simp [lookupA, hk, hv]
    · have hk1 : k1 ≠ k := by
        intro hcontra
        exact hnd.1 (hcontra ▸ (List.mem_map.2 ⟨(k, v), htl, rfl⟩))
      simp [lookupA, hk1, ih hnd.2 htl]

theorem rLookup_isSome_of_mem_rKeys {st : RedisState} {now : Nat} {k : Str}
    (hnd : (st.entries.map Prod.fst).Nodup) (hk : k ∈ rKeys st now) :
    (rLookup st now k).isSome = true := by
  unfold rKeys at hk
  obtain ⟨e, hef, hk1⟩ := List.mem_map.1 hk
  obtain ⟨hmem, hvis⟩ := List.mem_filter.1 hef
  obtain ⟨k1, h1⟩ := e
  subst hk1
  have hl : lookupA st.entries k1 = some h1 := lookupA_eq_of_mem hnd hmem
  unfold rLookup
  rw [hl]
  simp only at hvis
  simp [hvis]

theorem mem_keys_rItems {st : RedisState} {now : Nat} {cnt : Nat} {k : Str}
    (hnd : (st.entries.map Prod.fst).Nodup) :
    k ∈ (rItemsByHitCount st now cnt).map HitItem.key ↔ k ∈ (rKeys st now).take cnt := by
  unfold rItemsByHitCount
  constructor
  · intro h
    obtain ⟨it, hit, hk⟩ := List.mem_map.1 h
    have hit2 := (mem_sortByHit _ _).1 hit
    obtain ⟨k1, hk1, hf⟩ := List.mem_filterMap.1 hit2
    obtain ⟨h1, hl1, hb⟩ := Option.map_eq_some'.1 hf
    subst hb
    simp only at hk
    subst hk
    exact hk1
  · intro h
    have hsub : k ∈ rKeys st now := List.take_subset _ _ h
    have hsome := rLookup_isSome_of_mem_rKeys hnd hsub
    obtain ⟨h1, hl1⟩ := Option.isSome_iff_exists.1 hsome
    have hin : HitItem.mk k h1.hitCount h1.size h1.createdAt ∈
        sortByHit (((rKeys st now).take cnt).filterMap (fun k2 =>
          (rLookup st now k2).map (fun hh =>
            { key := k2, hitCount := hh.hitCount, size := hh.size, createdAt := hh.createdAt }))) := by
      refine (mem_sortByHit _ _).2 (List.mem_filterMap.2 ⟨k, h, ?_⟩)
      rw [hl1]
      rfl
    exact List.mem_map.2 ⟨HitItem.mk k h1.hitCount h1.size h1.createdAt, hin, rfl⟩

theorem foldl_rdelete_filter (ks : List Str) (st : RedisState) (now : Nat) :
    (ks.foldl (fun s k => (rdelete s now k).2) st).entries =
      st.entries.filter (fun e => decide (e.1 ∉ ks)) := by
  induction ks generalizing st with
  | nil => simp
  | cons k rest ih =>
    rw [List.foldl_cons, ih]
    show (eraseK st.entries k).filter (fun e => decide (e.1 ∉ rest)) = _
    unfold eraseK
    rw [List.filter_filter]
    apply List.filter_congr
    intro e _
    by_cases h1 : e.1 = k <;> by_cases h2 : e.1 ∈ rest <;> simp [h1, h2]

/-- C3 amended: on a capacity tick in mode redis with the used percentage
at or above the threshold, the manager deletes exactly the first
`ceil(0.2 * itemCount)` keys of the keyspace enumeration — about 20% of
the items by count, as the claim states, but selected as a slice of the
enumeration order rather than as the globally lowest-hit-count items:
`getItemsByHitCount` sorts by hit count only within that slice, and the
whole slice is evicted. -/
theorem c3_eviction_prefix_amended (st : RedisState) (now : Nat) (threshold used : ℚ)
    (hnd : (st.entries.map Prod.fst).Nodup) (hover : threshold ≤ used) :
    (manageRedisCapacity st now threshold used).entries =
      st.entries.filter
        (fun e => decide (e.1 ∉ (rKeys st now).take (ceilFifth (rKeys st now).length))) := by
  unfold manageRedisCapacity evictLeastUsedItems
  rw [if_pos hover, foldl_rdelete_filter]
  apply List.filter_congr
  intro e _
  by_cases h : e.1 ∈ (rKeys st now).take (ceilFifth (rKeys st now).length)
  · simp [(mem_keys_rItems hnd).2 h, h]
  · have : e.1 ∉ (rItemsByHitCount st now (ceilFifth (rKeys st now).length)).map HitItem.key := by
      intro hcontra
      exact h ((mem_keys_rItems hnd).1 hcontra)
    simp [this, h]

theorem c3_eviction_prefix_amended_witness :
    (manageRedisCapacity c3Redis 0 85 90).entries =
      c3Redis.entries.filter
        (fun e => decide (e.1 ∉ (rKeys c3Redis 0).take (ceilFifth (rKeys c3Redis 0).length))) := by
  exact c3_eviction_prefix_amended c3Redis 0 85 90 (by decide) (by norm_num)

/-- Total of the stored `size` fields over a memory key table. -/
def sumSizes (l : List (Str × MemEntry)) : Int := (l.map (fun e => (e.2.item.size : Int))).sum

theorem sumSizes_nonneg (l : List (Str × MemEntry)) : 0 ≤ sumSizes l := by
  induction l with
  | nil => simp [sumSizes]
  | cons hd tl ih =>
    unfold sumSizes at ih ⊢
    simp only [List.map_cons, List.sum_cons]
    have : (0 : Int) ≤ (hd.2.item.size : Int) := Int.natCast_nonneg _
    omega

theorem sumSizes_filter_add (l : List (Str × MemEntry)) (p : Str × MemEntry → Bool) :
    sumSizes (l.filter p) + sumSizes (l.filter (fun e => !(p e))) = sumSizes l := by
  induction l with
  | nil => simp [sumSizes]
  | cons hd tl ih =>
    unfold sumSizes at ih ⊢
    by_cases h : p hd = true <;> simp [h, List.filter_cons] <;> omega

theorem sumSizes_filter_cons (l : List (Str × MemEntry)) (k : Str) (ks : List Str) (E : MemEntry)
    (hnd : (l.map Prod.fst).Nodup) (hmem : (k, E) ∈ l) :
    sumSizes (l.filter (fun e => decide (e.1 ∈ k :: ks))) =
      (E.item.size : Int) + sumSizes ((eraseK l k).filter (fun e => decide (e.1 ∈ ks))) := by
  induction l with
  | nil => simp at hmem
  | cons hd tl ih =>
    obtain ⟨k1, E1⟩ := hd
    simp only [List.map_cons, List.nodup_cons] at hnd
    rcases List.mem_cons.1 hmem with heq | htl
    · injection heq with hk1 hE1
      subst hk1
      subst hE1
      have htlne : ∀ e ∈ tl, (e.1 ≠ k) := by
        intro e he hc
        exact hnd.1 (hc ▸ List.mem_map.2 ⟨e, he, rfl⟩)
      have h1 : tl.filter (fun e => decide (e.1 ∈ k :: ks)) = tl.filter (fun e => decide (e.1 ∈ ks)) := by
        apply List.filter_congr
        intro e he
        simp [htlne e he]
      have h2 : eraseK ((k, E) :: tl) k = tl := by
        unfold eraseK
        simp only [List.filter_cons]
        have : (decide ¬((k, E).1 = k)) = false := by simp
        rw [this]
        simp only [Bool.false_eq_true, if_false]
        apply List.filter_eq_self.2
        intro e he
        simp [htlne e he]
      rw [h2]
      unfold sumSizes
      simp only [List.filter_cons]
      have hhead : (decide ((k, E).1 ∈ k :: ks)) = true := by simp
      rw [hhead]
      simp only [if_true, List.map_cons, List.sum_cons]
      rw [show (tl.filter (fun e => decide (e.1 ∈ k :: ks))).map (fun e => (e.2.item.size : Int))
          = (tl.filter (fun e => decide (e.1 ∈ ks))).map (fun e => (e.2.item.size : Int)) by rw [h1]]
    · have hk1 : k1 ≠ k := by
        intro hc
        exact hnd.1 (hc ▸ List.mem_map.2 ⟨(k, E), htl, rfl⟩)
      have herase : eraseK ((k1, E1) :: tl) k = (k1, E1) :: eraseK tl k := by
        unfold eraseK
        simp [hk1]
      rw [herase]
      have ihr := ih hnd.2 htl
      by_cases hks : k1 ∈ ks
      · have hin : (decide ((k1, E1).1 ∈ k :: ks)) = true := by simp [hks]
        have hin2 : (decide ((k1, E1).1 ∈ ks)) = true := by simp [hks]
        unfold sumSizes at ihr ⊢
        simp only [List.filter_cons, hin, hin2, if_true, List.map_cons, List.sum_cons]
        omega
      · have hin : (decide ((k1, E1).1 ∈ k :: ks)) = false := by simp [hks, hk1]
        have hin2 : (decide ((k1, E1).1 ∈ ks)) = false := by simp [hks]
        simp only [List.filter_cons, hin, hin2, Bool.false_eq_true, if_false]
        exact ihr

theorem foldl_evictStep_spec (ks : List Str) (st : MemoryState) (now : Nat)
    (hnd : (st.entries.map Prod.fst).Nodup)
    (hlive : ∀ e ∈ st.entries, ncLive now e.2 = true)
    (hksnd : ks.Nodup)
    (hsub : ∀ k ∈ ks, k ∈ st.entries.map Prod.fst) :
    (ks.foldl (evictStep now) st).entries = st.entries.filter (fun e => decide (e.1 ∉ ks)) ∧
    (ks.foldl (evictStep now) st).currentCacheSize =
      st.currentCacheSize - sumSizes (st.entries.filter (fun e => decide (e.1 ∈ ks))) := by
  induction ks generalizing st with
  | nil => simp [sumSizes]
  | cons k rest ih =>
    have hk := hsub k (by simp)
    obtain ⟨e, hmem, hkey⟩ := List.mem_map.1 hk
    obtain ⟨k0, E⟩ := e
    simp only at hkey
    subst hkey
    have hlA : lookupA st.entries k0 = some E := lookupA_eq_of_mem hnd hmem
    have hLive : ncLive now E = true := by
      have := hlive (k0, E) hmem
      simpa using this
    have hstep : evictStep now st k0 =
        { entries := eraseK st.entries k0,
          currentCacheSize := st.currentCacheSize - (E.item.size : Int) } := by
      unfold evictStep ncGet
      rw [hlA]
      simp [hLive]
    have hknd := List.nodup_cons.1 hksnd
    have hst1nd : ((eraseK st.entries k0).map Prod.fst).Nodup := by
      have hsl : (eraseK st.entries k0).Sublist st.entries := List.filter_sublist _
      exact (hsl.map Prod.fst).nodup hnd
    have hst1live : ∀ e2 ∈ eraseK st.entries k0, ncLive now e2.2 = true := by
      intro e2 he2
      exact hlive e2 (List.mem_of_mem_filter he2)
    have hst1sub : ∀ k2 ∈ rest, k2 ∈ (eraseK st.entries k0).map Prod.fst := by
      intro k2 hk2
      obtain ⟨e2, hm2, hky2⟩ := List.mem_map.1 (hsub k2 (by simp [hk2]))
      have hne2 : (decide ¬(e2.1 = k0)) = true := by
        simp only [decide_eq_true_eq]
        rw [hky2]
        intro hc
        exact hknd.1 (hc ▸ hk2)
      exact List.mem_map.2 ⟨e2, List.mem_filter.2 ⟨hm2, hne2⟩, hky2⟩
    rw [List.foldl_cons, hstep]
    obtain ⟨ihe, ihs⟩ := ih
      { entries := eraseK st.entries k0,
        currentCacheSize := st.currentCacheSize - (E.item.size : Int) }
      hst1nd hst1live hknd.2 hst1sub
    constructor
    · rw [ihe]
      show (eraseK st.entries k0).filter (fun e2 => decide (e2.1 ∉ rest)) = _
      unfold eraseK
      rw [List.filter_filter]
      apply List.filter_congr
      intro e2 _
      by_cases h1 : e2.1 = k0 <;> by_cases h2 : e2.1 ∈ rest <;> simp [h1, h2]
    · rw [ihs]
      have hsum := sumSizes_filter_cons st.entries k0 rest E hnd hmem
      simp only at hsum ⊢
      omega

/-- C4 amended: a memory set of a value longer than `MAX_SIZE` returns
false, but first bulk-evicts the leading `ceil(0.2 * itemCount)` keys of
the key table whenever the table is nonempty; the items outside that
evicted prefix, and their contents, are unchanged. (Stated for states
whose key table has no duplicate keys, whose entries are live, and whose
size accumulator equals the total of the stored sizes — the invariants
of states the backend itself builds.) -/
theorem c4_oversize_set_amended (cfg : CacheConfig) (st : MemoryState) (now : Nat) (key : Str)
    (v : Bytes) (ttlOpt : Option Nat) (ct etag : Option Str) (lm : Option Nat)
    (hnd : (st.entries.map Prod.fst).Nodup)
    (hlive : ∀ e ∈ st.entries, ncLive now e.2 = true)
    (hacct : st.currentCacheSize = sumSizes st.entries)
    (hov : cfg.maxSize < (v.length : Int)) :
    (mset cfg st now key v ttlOpt ct etag lm).1 = false ∧
    (mset cfg st now key v ttlOpt ct etag lm).2.entries =
      st.entries.filter (fun e => decide (e.1 ∉
        (st.entries.map Prod.fst).take (ceilFifth st.entries.length))) := by
  have hsz0 : 0 ≤ st.currentCacheSize := hacct ▸ sumSizes_nonneg st.entries
  have hc1 : cfg.maxSize < st.currentCacheSize + (v.length : Int) := by omega
  by_cases hemp : st.entries = []
  · unfold mset
    rw [if_pos hc1]
    simp only [hemp, List.map_nil, List.isEmpty_nil, if_true]
    rw [if_pos hc1]
    simp [hemp]
  · have hksne : ((st.entries.map Prod.fst).isEmpty) = false := by
      cases hq : st.entries with
      | nil => exact absurd hq hemp
      | cons a b => simp [hq]
    have hspec := foldl_evictStep_spec
      ((st.entries.map Prod.fst).take (ceilFifth (st.entries.map Prod.fst).length))
      st now hnd hlive ((hnd.take)) (fun k2 hk2 => List.take_subset _ _ hk2)
    obtain ⟨hse, hss⟩ := hspec
    have hs1 : 0 ≤ (((st.entries.map Prod.fst).take
        (ceilFifth (st.entries.map Prod.fst).length)).foldl (evictStep now) st).currentCacheSize := by
      rw [hss, hacct]
      have hsplit := sumSizes_filter_add st.entries
        (fun e => decide (e.1 ∈ (st.entries.map Prod.fst).take
          (ceilFifth (st.entries.map Prod.fst).length)))
      have hpos := sumSizes_nonneg (st.entries.filter (fun e => !(decide (e.1 ∈
        (st.entries.map Prod.fst).take (ceilFifth (st.entries.map Prod.fst).length)))))
      omega
    have hc2 : cfg.maxSize <
        (((st.entries.map Prod.fst).take
          (ceilFifth (st.entries.map Prod.fst).length)).foldl (evictStep now) st).currentCacheSize
          + (v.length : Int) := by omega
    unfold mset
    rw [if_pos hc1]
    simp only [hksne, Bool.false_eq_true, if_false]
    rw [if_pos hc2]
    refine ⟨rfl, ?_⟩
    rw [hse]
    apply List.filter_congr
    intro e _
    have : (st.entries.map Prod.fst).length = st.entries.length := List.length_map _ _
    rw [this]

theorem c4_oversize_set_amended_witness :
    (mset smallCfg c4Before 0 ("b".data) oversizeV none none none none).1 = false ∧
    (mset smallCfg c4Before 0 ("b".data) oversizeV none none none none).2.entries =
      c4Before.entries.filter (fun e => decide (e.1 ∉
        (c4Before.entries.map Prod.fst).take (ceilFifth c4Before.entries.length))) := by
  exact c4_oversize_set_amended smallCfg c4Before 0 ("b".data) oversizeV none none none none
    (by decide) (by decide) (by decide) (by decide)
